import Mathlib

/-!
Verification of the batched top-k recommendation pipeline of
`opends/tinkoff_stories_recsys/models.py` and of the transaction-dropout
augmentation of `ptls/data_load/augmentations/dropout_trx.py`.

Scores are modelled over `ℚ` (the code computes with finite floats; exact
arithmetic keeps the order-theoretic content).  External library primitives
(`torch.topk`, `np.random.choice`, `implicit` ALS ranking) are modelled by
explicit Lean functions or by parameters constrained by their documented
contracts; every repository-owned computation is translated directly from
the source.
-/

namespace Recsys

/-- A row of an interaction log: `(user_id, item_id, relevance)`. -/
structure LogRow where
  user : ℕ
  item : ℕ
  relevance : ℚ
deriving DecidableEq, Repr

/-- The `groupby(['user_id','item_id'])[['relevance']].count().reset_index()`
step (models.py lines 379 and 515): the exclusion log is reduced to its set
of distinct `(user_id, item_id)` pairs (the count value is only ever tested
for non-NaN afterwards, so only pair membership matters). -/
def dedupPairs (log : List LogRow) : List (ℕ × ℕ) :=
  (log.map (fun r => (r.user, r.item))).dedup

/-- The `cosine` branch of `Activation.forward` (models.py line 122):
`(t + 1.0) / 2.0`. -/
def cosineActivation (t : ℚ) : ℚ := (t + 1) / 2

/-- The mask/score combination of `StoriesRecModel.batch_predict`
(models.py lines 220-221) and `PopularModel.model_predict_top_k`
(lines 550-551): `drop_mask * (-1.0) + (1.0 - drop_mask) * score`,
where the mask entries are the 0/1 values of `(~df_log_e.isna())`. -/
def combineScore (mask : Bool) (raw : ℚ) : ℚ :=
  (if mask then (1 : ℚ) else 0) * (-1) + (1 - (if mask then (1 : ℚ) else 0)) * raw

/-- Entry of a score row, with the out-of-range default 0. -/
def scoreAt (r : List ℚ) (i : ℕ) : ℚ := r.getD i 0

/-- Modelled from the spec: the selection order of `torch.topk(..., dim=1)`
(an external numeric-library primitive, not part of this repository).
Index `i` ranks before index `j` when its score is strictly larger, or the
scores are exactly equal and `i ≤ j` - the deterministic tie-by-index order
the spec assigns to the top-k selection primitive. -/
def rankLe (r : List ℚ) (i j : ℕ) : Prop :=
  scoreAt r j < scoreAt r i ∨ (scoreAt r i = scoreAt r j ∧ i ≤ j)

instance rankLe.decidableRel (r : List ℚ) : DecidableRel (rankLe r) := fun i j => by
  unfold rankLe
  infer_instance

instance rankLe.isTotal (r : List ℚ) : IsTotal ℕ (rankLe r) := by
  constructor
  intro i j
  rcases lt_trichotomy (scoreAt r i) (scoreAt r j) with h | h | h
  · exact Or.inr (Or.inl h)
  · rcases Nat.le_total i j with hij | hij
    · exact Or.inl (Or.inr ⟨h, hij⟩)
    · exact Or.inr (Or.inr ⟨h.symm, hij⟩)
  · exact Or.inl (Or.inl h)

instance rankLe.isTrans (r : List ℚ) : IsTrans ℕ (rankLe r) := by
  constructor
  intro i j l hij hjl
  rcases hij with h1 | ⟨h1, h1'⟩ <;> rcases hjl with h2 | ⟨h2, h2'⟩
  · exact Or.inl (h2.trans h1)
  · exact Or.inl (h2 ▸ h1)
  · exact Or.inl (h1 ▸ h2)
  · exact Or.inr ⟨h1.trans h2, h1'.trans h2'⟩

/-- Model of `torch.topk(user_item, k=k, dim=1)` applied to one score row:
the indices of the `k` largest entries, in descending score order, ties
resolved by ascending index (see `rankLe`). -/
def topkIdx (r : List ℚ) (k : ℕ) : List ℕ :=
  (List.insertionSort (rankLe r) (List.range r.length)).take k

/-- Structural-recursion worker for `chunkList`; `fuel` bounds the number
of batches and any `fuel ≥ l.length` yields the full chunking. -/
def chunkListGo (B : ℕ) : ℕ → List α → List (List α)
  | _, [] => []
  | 0, _ :: _ => []
  | fuel + 1, a :: l => (a :: l.take (B - 1)) :: chunkListGo B fuel (l.drop (B - 1))

/-- The batching loop bounds of `model_predict_top_k`
(`for ix_start in range(0, len, valid_batch_size)` with slices
`iloc[ix_start:ix_start + valid_batch_size]`, models.py lines 401-403 and
535-537): the user list split into consecutive chunks of size `B`
(the last chunk may be shorter). -/
def chunkList (B : ℕ) (l : List α) : List (List α) := chunkListGo B l.length l

/-- The exclusion-mask construction of `model_predict_top_k`
(models.py lines 412-420 and 539-547): filter the deduplicated exclusion
log to the users of the batch (`isin(batch_id_users)`); if no rows remain,
return `np.zeros((len(batch_id_users), len(id_items)))`; otherwise pivot
on `(user_id, item_id)`, reindex to the batch users and the candidate
items, and mark a cell `True` iff it is non-NaN, i.e. iff the
`(user, item)` pair occurs in the filtered log. -/
def buildMask (exPairs : List (ℕ × ℕ)) (batchUsers : List ℕ) (items : List ℕ) :
    List (List Bool) :=
  let filtered := exPairs.filter (fun p => decide (p.1 ∈ batchUsers))
  if filtered.length = 0 then
    batchUsers.map (fun _ => items.map (fun _ => false))
  else
    batchUsers.map (fun u => items.map (fun i => decide ((u, i) ∈ filtered)))

/-- One user's contribution to the output of `model_predict_top_k`: the
masked combined row handed to `torch.topk` (models.py lines 220-222 / 549-553)
and the `(user_id, a_items[index])` output pairing
(lines 426-428 / 556-558). -/
def userTopK (scoreRow : List ℚ) (maskRow : List Bool) (items : List ℕ)
    (k : ℕ) (u : ℕ) : List (ℕ × ℕ) :=
  (topkIdx (List.zipWith combineScore maskRow scoreRow) k).map
    (fun j => (u, items.getD j 0))

/-- The shared batched top-k pipeline of `model_predict_top_k`
(models.py lines 400-430 and 534-558): chunk the user list, build the
per-batch exclusion mask, combine it with each user's score row, select
top-k per row and emit `(user_id, item_id)` pairs in batch order. -/
def pipelineTopK (scoreRowFor : ℕ → List ℚ) (exPairs : List (ℕ × ℕ))
    (items : List ℕ) (k B : ℕ) (users : List ℕ) : List (ℕ × ℕ) :=
  (chunkList B users).flatMap (fun batch =>
    (batch.zip (buildMask exPairs batch items)).flatMap
      (fun p => userTopK (scoreRowFor p.1) p.2 items k p.1))

/-- `StoriesRecModel.model_predict_top_k` (models.py lines 378-430).
The per-user raw score row is abstracted by `score : user -> item -> ℚ`,
standing for `activation(h_user . h_item)` computed from the trained
embeddings of the fixed user and item feature tables: it depends only on
the user id and the item id, exactly as in `batch_predict`. -/
def storiesPredictTopK (score : ℕ → ℕ → ℚ) (exLog : List LogRow)
    (idUsers idItems : List ℕ) (k B : ℕ) : List (ℕ × ℕ) :=
  pipelineTopK (fun u => idItems.map (score u)) (dedupPairs exLog) idItems k B idUsers

/-- Sum of the popularity counts: `df_items_to_rec.sum()`
(models.py line 484). -/
def popTotal (pop : List (ℕ × ℚ)) : ℚ := (pop.map Prod.snd).sum

/-- `PopularModel._get_item_scores` (models.py lines 482-486):
`(df_items_to_rec + alpha) / (df_items_to_rec.sum() + beta)` applied to the
trained popularity table `pop` (item id, interaction count). -/
def getItemScores (pop : List (ℕ × ℚ)) (alpha beta : ℚ) : List (ℕ × ℚ) :=
  pop.map (fun p => (p.1, (p.2 + alpha) / (popTotal pop + beta)))

/-- `reindex(index=id_items).fillna(0.0)` (models.py line 523): the score of
an item id, or 0 when the id is absent from the score table. -/
def lookupScore (scores : List (ℕ × ℚ)) (i : ℕ) : ℚ := (scores.lookup i).getD 0

/-- Descending order on scored items, for
`sort_values(ascending=False)` (models.py line 525). -/
def itemGe (p q : ℕ × ℚ) : Prop := q.2 ≤ p.2

instance itemGe.decidableRel : DecidableRel itemGe := fun p q => by
  unfold itemGe
  infer_instance

instance itemGe.isTotal : IsTotal (ℕ × ℚ) itemGe :=
  ⟨fun p q => (le_total q.2 p.2).imp id id⟩

instance itemGe.isTrans : IsTrans (ℕ × ℚ) itemGe :=
  ⟨fun _ _ _ h1 h2 => le_trans h2 h1⟩

/-- The global candidate restriction of `PopularModel.model_predict_top_k`
(models.py lines 522-526): reindex the smoothed scores to `id_items` with
NaN filled by 0, sort by score descending, and keep the first
`int(k + avg_num_items)` scored items (computed once, before the batch
loop). -/
def popularRestrict (pop : List (ℕ × ℚ)) (alpha beta : ℚ) (idItems : List ℕ)
    (k avg : ℕ) : List (ℕ × ℚ) :=
  let reindexed := idItems.map (fun i => (i, lookupScore (getItemScores pop alpha beta) i))
  (List.insertionSort itemGe reindexed).take (k + avg)

/-- The constant per-user score row of `PopularModel.model_predict_top_k`
(models.py lines 531, 549): `item_predict_row` expanded to every user of
the batch - the same row for every user. -/
def popularRowFor (pop : List (ℕ × ℚ)) (alpha beta : ℚ) (idItems : List ℕ)
    (k avg : ℕ) : ℕ → List ℚ :=
  fun _ => (popularRestrict pop alpha beta idItems k avg).map Prod.snd

/-- `PopularModel.model_predict_top_k` (models.py lines 509-560): restrict
the candidates globally, then run the shared batched mask/top-k pipeline
with the constant popularity row.  `avg` is the trained
`avg_num_items = ceil(mean items per user)` (line 471), an integer. -/
def popularPredictTopK (pop : List (ℕ × ℚ)) (alpha beta : ℚ) (avg : ℕ)
    (exLog : List LogRow) (idUsers idItems : List ℕ) (k B : ℕ) : List (ℕ × ℕ) :=
  pipelineTopK (popularRowFor pop alpha beta idItems k avg) (dedupPairs exLog)
    ((popularRestrict pop alpha beta idItems k avg).map Prod.fst) k B idUsers

/-- The identifier-encoder lookups of `StoriesRecModel.model_predict_top_k`
(models.py lines 394 and 409): `self.item_encoder.get(item_id, 0)` and
`self.user_encoder.get(user_id, 0)` - a dict lookup with the reserved
sentinel index 0 for unknown identifiers. -/
def encoderGet (enc : List (ℕ × ℕ)) (x : ℕ) : ℕ := (enc.lookup x).getD 0

/-- `ALSModel.model_predict` row construction (models.py lines 690-703).
`rankItems` abstracts `self.model.rank_items` composed with the
`self.item_index[...]` back-mapping (the external `implicit` library):
given the internal user index and the internal indices of the known items,
it returns `(external item id, score)` pairs.  Users absent from
`user_map` yield `(user, item, 0.0)` for every requested item; for known
users, items absent from `item_map` are appended with score 0.0. -/
def alsPredictRows (userMap itemMap : List (ℕ × ℕ))
    (rankItems : ℕ → List ℕ → List (ℕ × ℚ))
    (forPredict : List (ℕ × List ℕ)) : List (ℕ × ℕ × ℚ) :=
  forPredict.flatMap (fun p =>
    match userMap.lookup p.1 with
    | none => p.2.map (fun i => (p.1, i, (0 : ℚ)))
    | some uix =>
      (if 0 < (p.2.filterMap (fun i => itemMap.lookup i)).length then
        (rankItems uix (p.2.filterMap (fun i => itemMap.lookup i))).map
          (fun q => (p.1, q.1, q.2))
      else [])
        ++ (p.2.filter (fun i => (itemMap.lookup i).isNone)).map
            (fun i => (p.1, i, (0 : ℚ))))

/-- Sorting of natural-number indices, for `np.sort` in
`DropoutTrx.get_idx` (dropout_trx.py line 26). -/
def natSort (l : List ℕ) : List ℕ := List.insertionSort (· ≤ ·) l

/-- The sample size of `DropoutTrx.get_idx` (dropout_trx.py line 24):
`int(seq_len * (1 - trx_dropout) + 1)` - the Python `int` truncation of a
value that is positive in the branch where it is used, hence a floor. -/
def dropoutCount (q : ℚ) (seqLen : ℕ) : ℕ :=
  (⌊(seqLen : ℚ) * (1 - q) + 1⌋).toNat

/-- `DropoutTrx.get_idx` (dropout_trx.py lines 21-27).  `sample n s`
abstracts `np.random.choice(n, size=s, replace=False)` (external numpy
primitive): its documented contract - `s` distinct values drawn from
`[0, n)` - is assumed where needed in the theorems. -/
def getIdx (q : ℚ) (sample : ℕ → ℕ → List ℕ) (seqLen : ℕ) : List ℕ :=
  if 0 < q ∧ 0 < seqLen then natSort (sample seqLen (dropoutCount q seqLen))
  else List.range seqLen

/-- Derived characterization of one row of the exclusion mask: position `j`
of user `u`'s row is masked iff `(u, items[j])` occurs in the deduplicated
exclusion log.  Proved equal to the rows of `buildMask` below. -/
def maskRow (exPairs : List (ℕ × ℕ)) (u : ℕ) (items : List ℕ) : List Bool :=
  items.map (fun i => decide ((u, i) ∈ exPairs))

/-- One user's end-to-end contribution to the pipeline output, independent
of how the user list is batched; used to state batching invariance. -/
def pipeUserOut (scoreRowFor : ℕ → List ℚ) (exPairs : List (ℕ × ℕ))
    (items : List ℕ) (k : ℕ) (u : ℕ) : List (ℕ × ℕ) :=
  userTopK (scoreRowFor u) (maskRow exPairs u items) items k u

end Recsys

namespace Recsys

/-! ### Helper lemmas -/

theorem combineScore_true (r : ℚ) : combineScore true r = -1 := by
  simp [combineScore]

theorem combineScore_false (r : ℚ) : combineScore false r = r := by
  simp [combineScore]

theorem topkIdx_length (r : List ℚ) (k : ℕ) (h : k ≤ r.length) :
    (topkIdx r k).length = k := by
  simp [topkIdx, List.length_take, List.length_insertionSort, List.length_range,
    Nat.min_eq_left h]

theorem topkIdx_nodup (r : List ℚ) (k : ℕ) : (topkIdx r k).Nodup := by
  have hnd : (List.insertionSort (rankLe r) (List.range r.length)).Nodup :=
    (List.perm_insertionSort (rankLe r) (List.range r.length)).nodup_iff.mpr
      (List.nodup_range _)
  exact hnd.sublist (List.take_sublist _ _)

theorem topkIdx_sorted (r : List ℚ) (k : ℕ) :
    (topkIdx r k).Pairwise (rankLe r) := by
  have hs : (List.insertionSort (rankLe r) (List.range r.length)).Pairwise (rankLe r) :=
    List.sorted_insertionSort (rankLe r) (List.range r.length)
  exact hs.sublist (List.take_sublist _ _)

theorem topkIdx_mem_lt (r : List ℚ) (k j : ℕ) (hj : j ∈ topkIdx r k) :
    j < r.length := by
  have h1 : j ∈ List.insertionSort (rankLe r) (List.range r.length) :=
    (List.take_sublist _ _).subset hj
  have h2 : j ∈ List.range r.length :=
    (List.perm_insertionSort (rankLe r) (List.range r.length)).mem_iff.mp h1
  exact List.mem_range.mp h2

theorem not_mem_topkIdx_of_neg (r : List ℚ) (k j : ℕ) (hj : scoreAt r j < 0)
    (hk : k ≤ ((List.range r.length).filter (fun i => decide (0 ≤ scoreAt r i))).length) :
    j ∉ topkIdx r k := by
  intro hmem
  have hperm : (List.insertionSort (rankLe r) (List.range r.length)).Perm
      (List.range r.length) := List.perm_insertionSort _ _
  have hnd : (List.insertionSort (rankLe r) (List.range r.length)).Nodup :=
    hperm.nodup_iff.mpr (List.nodup_range _)
  have hsort : (List.insertionSort (rankLe r) (List.range r.length)).Pairwise (rankLe r) :=
    List.sorted_insertionSort _ _
  have hjL : j ∈ List.insertionSort (rankLe r) (List.range r.length) :=
    (List.take_sublist _ _).subset hmem
  obtain ⟨A, B, hAB⟩ := List.append_of_mem hjL
  have hndAB := hnd
  rw [hAB, List.nodup_append] at hndAB
  have hAlt : A.length < k := by
    by_contra hge
    push_neg at hge
    have hjA : j ∈ A := by
      have := hmem
      rw [topkIdx, hAB, List.take_append_of_le_length hge] at this
      exact (List.take_sublist _ _).subset this
    exact hndAB.2.2 hjA (List.mem_cons_self j B)
  have hsub : ((List.range r.length).filter (fun i => decide (0 ≤ scoreAt r i))) ⊆ A := by
    intro x hx
    rw [List.mem_filter] at hx
    have hx0 : (0 : ℚ) ≤ scoreAt r x := of_decide_eq_true hx.2
    have hxr : x ∈ List.insertionSort (rankLe r) (List.range r.length) :=
      hperm.mem_iff.mpr hx.1
    rw [hAB] at hxr
    rcases List.mem_append.mp hxr with hA | hB
    · exact hA
    · rcases List.mem_cons.mp hB with rfl | hB
      · exact absurd hx0 (not_le.mpr hj)
      · rw [hAB, List.pairwise_append] at hsort
        have hr : rankLe r j x := (List.pairwise_cons.mp hsort.2.1).1 x hB
        have hle : scoreAt r x ≤ scoreAt r j := by
          rcases hr with h | ⟨h, _⟩
          · exact le_of_lt h
          · exact le_of_eq h.symm
        exact absurd hx0 (not_le.mpr (lt_of_le_of_lt hle hj))
  have hndf : ((List.range r.length).filter (fun i => decide (0 ≤ scoreAt r i))).Nodup :=
    (List.nodup_range _).filter _
  have hlen := (hndf.subperm hsub).length_le
  omega

theorem buildMask_eq_map (ex : List (ℕ × ℕ)) (batch items : List ℕ) :
    buildMask ex batch items = batch.map (fun u => maskRow ex u items) := by
  unfold buildMask maskRow
  by_cases hf : (ex.filter (fun p => decide (p.1 ∈ batch))).length = 0
  · rw [if_pos hf]
    have hemp : ex.filter (fun p => decide (p.1 ∈ batch)) = [] :=
      List.length_eq_zero.mp hf
    apply List.map_congr_left
    intro u hu
    apply List.map_congr_left
    intro i _
    have hnmem : (u, i) ∉ ex := by
      intro hmem
      have hfil : (u, i) ∈ ex.filter (fun p => decide (p.1 ∈ batch)) :=
        List.mem_filter.mpr ⟨hmem, by simpa using hu⟩
      rw [hemp] at hfil
      exact absurd hfil (List.not_mem_nil _)
    exact (decide_eq_false hnmem).symm
  · rw [if_neg hf]
    apply List.map_congr_left
    intro u hu
    apply List.map_congr_left
    intro i _
    refine decide_eq_decide.mpr ?_
    rw [List.mem_filter]
    simp [hu]

theorem chunkListGo_flatten (B fuel : ℕ) (l : List α) (hf : l.length ≤ fuel) :
    (chunkListGo B fuel l).flatten = l := by
  induction fuel generalizing l with
  | zero =>
    cases l with
    | nil => rfl
    | cons a l => simp at hf
  | succ fuel ih =>
    cases l with
    | nil => rfl
    | cons a l =>
      simp only [chunkListGo, List.flatten_cons, List.cons_append]
      rw [ih (l.drop (B - 1)) (by simp only [List.length_drop]; simp at hf; omega),
        List.take_append_drop]

theorem chunkList_flatten (B : ℕ) (l : List α) : (chunkList B l).flatten = l :=
  chunkListGo_flatten B l.length l le_rfl

theorem flatMap_flatten (ll : List (List α)) (g : α → List β) :
    ll.flatMap (fun b => b.flatMap g) = ll.flatten.flatMap g := by
  induction ll with
  | nil => rfl
  | cons b ll ih => simp [List.flatMap_append, ih]

theorem zip_map_flatMap (l : List α) (g : α → β) (h : α → β → List γ) :
    (l.zip (l.map g)).flatMap (fun p => h p.1 p.2) = l.flatMap (fun a => h a (g a)) := by
  induction l with
  | nil => rfl
  | cons a l ih => simp only [List.map_cons, List.zip_cons_cons, List.flatMap_cons, ih]

theorem pipelineTopK_eq_flatMap (f : ℕ → List ℚ) (ex : List (ℕ × ℕ)) (items : List ℕ)
    (k B : ℕ) (users : List ℕ) :
    pipelineTopK f ex items k B users = users.flatMap (pipeUserOut f ex items k) := by
  unfold pipelineTopK
  have hbatch : ∀ batch : List ℕ,
      (batch.zip (buildMask ex batch items)).flatMap
        (fun p => userTopK (f p.1) p.2 items k p.1)
      = batch.flatMap (pipeUserOut f ex items k) := by
    intro batch
    rw [buildMask_eq_map]
    exact zip_map_flatMap batch _ (fun u m => userTopK (f u) m items k u)
  simp only [hbatch]
  rw [flatMap_flatten, chunkList_flatten]

theorem getD_map_of_lt (f : α → β) (l : List α) (p : ℕ) (hp : p < l.length)
    (d : α) (d' : β) : (l.map f).getD p d' = f (l.getD p d) := by
  induction l generalizing p with
  | nil => simp at hp
  | cons a l ih =>
    cases p with
    | zero => rfl
    | succ p =>
      simp only [List.map_cons, List.getD_cons_succ]
      exact ih p (Nat.lt_of_succ_lt_succ (by simpa using hp))

theorem getD_zipWith_combine (m : List Bool) (s : List ℚ) (p : ℕ)
    (h1 : p < m.length) (h2 : p < s.length) :
    (List.zipWith combineScore m s).getD p 0
      = combineScore (m.getD p false) (s.getD p 0) := by
  induction m generalizing s p with
  | nil => simp at h1
  | cons b m ih =>
    cases s with
    | nil => simp at h2
    | cons x s =>
      cases p with
      | zero => rfl
      | succ p =>
        simp only [List.zipWith_cons_cons, List.getD_cons_succ]
        exact ih s p (Nat.lt_of_succ_lt_succ (by simpa using h1))
          (Nat.lt_of_succ_lt_succ (by simpa using h2))

theorem maskRow_length (ex : List (ℕ × ℕ)) (u : ℕ) (items : List ℕ) :
    (maskRow ex u items).length = items.length := by
  simp [maskRow]

theorem maskRow_getD (ex : List (ℕ × ℕ)) (u : ℕ) (items : List ℕ) (p : ℕ)
    (hp : p < items.length) :
    (maskRow ex u items).getD p false = decide ((u, items.getD p 0) ∈ ex) := by
  unfold maskRow
  exact getD_map_of_lt _ items p hp 0 false

theorem combined_length (ex : List (ℕ × ℕ)) (u : ℕ) (items : List ℕ) (srow : List ℚ)
    (hlen : srow.length = items.length) :
    (List.zipWith combineScore (maskRow ex u items) srow).length = items.length := by
  simp [List.length_zipWith, maskRow, hlen]

theorem scoreAt_combined (ex : List (ℕ × ℕ)) (u : ℕ) (items : List ℕ) (srow : List ℚ)
    (hlen : srow.length = items.length) (p : ℕ) (hp : p < items.length) :
    scoreAt (List.zipWith combineScore (maskRow ex u items) srow) p
      = combineScore (decide ((u, items.getD p 0) ∈ ex)) (srow.getD p 0) := by
  rw [scoreAt, getD_zipWith_combine _ _ p (by rwa [maskRow_length]) (by omega),
    maskRow_getD _ _ _ _ hp]

theorem length_filter_range_getD (l : List α) (d : α) (P : α → Bool) :
    ((List.range l.length).filter (fun j => P (l.getD j d))).length
      = (l.filter P).length := by
  induction l with
  | nil => rfl
  | cons a l ih =>
    rw [List.length_cons, List.range_succ_eq_map, List.filter_cons, List.filter_cons,
      List.filter_map]
    have hcomp : ((fun j => P ((a :: l).getD j d)) ∘ Nat.succ) = fun j => P (l.getD j d) := by
      funext j
      simp [List.getD_cons_succ]
    rw [hcomp]
    by_cases hPa : P a = true
    · simp only [List.getD_cons_zero, hPa, if_pos, List.length_cons, List.length_map]
      omega
    · rw [eq_false_of_ne_true hPa]
      simp only [List.getD_cons_zero, hPa, Bool.false_eq_true, if_false, List.length_map]
      omega

theorem length_filter_mono (l : List α) (p q : α → Bool)
    (h : ∀ x ∈ l, p x = true → q x = true) :
    (l.filter p).length ≤ (l.filter q).length := by
  rw [← List.countP_eq_length_filter, ← List.countP_eq_length_filter]
  exact List.countP_mono_left h

theorem pipeUserOut_eq_map (f : ℕ → List ℚ) (ex : List (ℕ × ℕ)) (items : List ℕ)
    (k u : ℕ) :
    pipeUserOut f ex items k u
      = (topkIdx (List.zipWith combineScore (maskRow ex u items) (f u)) k).map
          (fun j => (u, items.getD j 0)) := rfl

theorem count_user_output (g : ℕ → List (ℕ × ℕ)) (users : List ℕ) (u : ℕ)
    (hnd : users.Nodup) (hu : u ∈ users) (hfst : ∀ v, ∀ x ∈ g v, x.1 = v) :
    ((users.flatMap g).filter (fun x => decide (x.1 = u))).length = (g u).length := by
  induction users with
  | nil => cases hu
  | cons v users ih =>
    rw [List.flatMap_cons, List.filter_append, List.length_append]
    rcases List.mem_cons.mp hu with rfl | hu'
    · have h1 : (g u).filter (fun x => decide (x.1 = u)) = g u :=
        List.filter_eq_self.mpr (fun x hx => decide_eq_true (hfst u x hx))
      have hnotin : u ∉ users := (List.nodup_cons.mp hnd).1
      have h2 : ((users.flatMap g).filter (fun x => decide (x.1 = u))).length = 0 := by
        rw [List.length_eq_zero]
        apply List.filter_eq_nil_iff.mpr
        intro x hx
        obtain ⟨w, hw, hxw⟩ := List.mem_flatMap.mp hx
        have hxw1 := hfst w x hxw
        simp only [decide_eq_true_eq, hxw1]
        rintro rfl
        exact hnotin hw
      rw [h1, h2]
      omega
    · have hvne : v ≠ u := by
        rintro rfl
        exact (List.nodup_cons.mp hnd).1 hu'
      have h1 : (g v).filter (fun x => decide (x.1 = u)) = [] := by
        apply List.filter_eq_nil_iff.mpr
        intro x hx
        have := hfst v x hx
        simp only [decide_eq_true_eq, this]
        exact hvne
      rw [h1]
      simpa using ih (List.nodup_cons.mp hnd).2 hu'

theorem pairwise_take_drop {R : α → α → Prop} (l : List α) (n : ℕ)
    (h : l.Pairwise R) : ∀ p ∈ l.take n, ∀ q ∈ l.drop n, R p q := by
  have hsplit : l = l.take n ++ l.drop n := (List.take_append_drop n l).symm
  rw [hsplit, List.pairwise_append] at h
  exact h.2.2

/-! ### Claim theorems -/

/-- C2: when the exclusion log filtered to the batch users is empty, the
mask construction returns the all-false matrix of shape
(batch users × candidate items), taking the zero branch instead of the
pivot branch, and is total (no exception path exists in the embedding). -/
theorem exclusion_mask_empty_case (exPairs : List (ℕ × ℕ)) (batchUsers items : List ℕ)
    (hemp : exPairs.filter (fun p => decide (p.1 ∈ batchUsers)) = []) :
    buildMask exPairs batchUsers items
        = batchUsers.map (fun _ => items.map (fun _ => false))
      ∧ (buildMask exPairs batchUsers items).length = batchUsers.length
      ∧ ∀ row ∈ buildMask exPairs batchUsers items,
          row.length = items.length ∧ ∀ b ∈ row, b = false := by
  have h0 : buildMask exPairs batchUsers items
      = batchUsers.map (fun _ => items.map (fun _ => false)) := by
    unfold buildMask
    rw [hemp]
    rfl
  refine ⟨h0, by rw [h0]; simp, ?_⟩
  intro row hrow
  rw [h0] at hrow
  obtain ⟨u, _, hrow⟩ := List.mem_map.mp hrow
  subst hrow
  constructor
  · simp
  · intro b hb
    obtain ⟨i, _, hb⟩ := List.mem_map.mp hb
    exact hb.symm

/-- C2 witness: a concrete exclusion log whose single user is outside the
batch yields the all-false 2 × 2 mask. -/
theorem exclusion_mask_empty_case_witness :
    buildMask [(5, 1)] [1, 2] [1, 3] = [[false, false], [false, false]] :=
  (exclusion_mask_empty_case [(5, 1)] [1, 2] [1, 3] (by decide)).1

/-- C4: the combined score is the raw score where the mask is false and the
finite sentinel value -1 where the mask is true (`drop_mask * (-1.0) +
(1.0 - drop_mask) * score`); the sentinel is strictly below every possible
unmasked score, since the cosine activation output `(t + 1) / 2` of a dot
product `t ≥ -1` of normalized embeddings is nonnegative. -/
theorem mask_sentinel_combine (m : Bool) (r t : ℚ) (ht : -1 ≤ t) :
    combineScore m r = (if m then -1 else r)
      ∧ combineScore true r < cosineActivation t := by
  constructor
  · cases m
    · simp [combineScore_false]
    · simp [combineScore_true]
  · rw [combineScore_true, cosineActivation]
    linarith

/-- C4 witness at mask on, raw score 9/10 and dot product 0. -/
theorem mask_sentinel_combine_witness :
    combineScore true (9 / 10) = (if (true : Bool) then (-1 : ℚ) else 9 / 10)
      ∧ combineScore true (9 / 10) < cosineActivation 0 :=
  mask_sentinel_combine true (9 / 10) 0 (by norm_num)

/-- C5: batching invariance - for any two positive batch sizes, both the
learned-embedding pipeline and the popularity pipeline produce identical
output: each user's combined score row depends only on the user, the item
list and the exclusion log, never on the batch split. -/
theorem batching_invariance (score : ℕ → ℕ → ℚ) (pop : List (ℕ × ℚ))
    (alpha beta : ℚ) (avg : ℕ) (exLog : List LogRow) (users items : List ℕ)
    (k b1 b2 : ℕ) (h1 : 0 < b1) (h2 : 0 < b2) :
    storiesPredictTopK score exLog users items k b1
        = storiesPredictTopK score exLog users items k b2
      ∧ popularPredictTopK pop alpha beta avg exLog users items k b1
        = popularPredictTopK pop alpha beta avg exLog users items k b2 := by
  constructor
  · unfold storiesPredictTopK
    rw [pipelineTopK_eq_flatMap, pipelineTopK_eq_flatMap]
  · unfold popularPredictTopK
    rw [pipelineTopK_eq_flatMap, pipelineTopK_eq_flatMap]

/-- C5 witness: batch sizes 1 and 3 agree on a concrete three-user input. -/
theorem batching_invariance_witness :
    storiesPredictTopK (fun u i => (u : ℚ) / (i + 1)) [⟨1, 2, 1⟩] [1, 2, 3] [2, 4] 1 1
        = storiesPredictTopK (fun u i => (u : ℚ) / (i + 1)) [⟨1, 2, 1⟩] [1, 2, 3] [2, 4] 1 3
      ∧ popularPredictTopK [(2, 3), (4, 1)] 1000 1000 1 [⟨1, 2, 1⟩] [1, 2, 3] [2, 4] 1 1
        = popularPredictTopK [(2, 3), (4, 1)] 1000 1000 1 [⟨1, 2, 1⟩] [1, 2, 3] [2, 4] 1 3 :=
  batching_invariance (fun u i => (u : ℚ) / (i + 1)) [(2, 3), (4, 1)] 1000 1000 1
    [⟨1, 2, 1⟩] [1, 2, 3] [2, 4] 1 1 3 (by decide) (by decide)

/-- C9: the top-k extraction is a pure function (hence identical on
repeated identical inputs), and whenever two selected items have exactly
equal combined score, the one with the lower index is ordered first: every
pair of equal-score positions in the output appears in ascending index
order. -/
theorem topk_tie_by_index (r : List ℚ) (k : ℕ) :
    (topkIdx r k).Pairwise (fun i j => scoreAt r i = scoreAt r j → i < j) := by
  have h1 := topkIdx_sorted r k
  have h2 : (topkIdx r k).Pairwise (· ≠ ·) := topkIdx_nodup r k
  refine (h1.and h2).imp ?_
  rintro i j ⟨hr, hne⟩ heq
  rcases hr with h | ⟨_, hle⟩
  · exact absurd heq.symm (ne_of_lt h)
  · exact lt_of_le_of_ne hle hne

/-- C8: unknown external identifiers never abort prediction.  The encoder
lookup of the learned-embedding model resolves an unknown identifier to
the reserved sentinel index 0; the matrix-factorization predict loop
assigns score 0.0 to every pair of an unknown user, and to every unknown
item of a known user; all three operations are total functions. -/
theorem unknown_identifier_handling :
    (∀ (enc : List (ℕ × ℕ)) (x : ℕ), enc.lookup x = none → encoderGet enc x = 0)
    ∧ (∀ (userMap itemMap : List (ℕ × ℕ)) (rankItems : ℕ → List ℕ → List (ℕ × ℚ))
        (forPredict : List (ℕ × List ℕ)) (u : ℕ) (its : List ℕ),
        (u, its) ∈ forPredict → userMap.lookup u = none →
        ∀ i ∈ its, (u, i, (0 : ℚ)) ∈ alsPredictRows userMap itemMap rankItems forPredict)
    ∧ (∀ (userMap itemMap : List (ℕ × ℕ)) (rankItems : ℕ → List ℕ → List (ℕ × ℚ))
        (forPredict : List (ℕ × List ℕ)) (u uix : ℕ) (its : List ℕ),
        (u, its) ∈ forPredict → userMap.lookup u = some uix →
        ∀ i ∈ its, itemMap.lookup i = none →
        (u, i, (0 : ℚ)) ∈ alsPredictRows userMap itemMap rankItems forPredict) := by
  refine ⟨?_, ?_, ?_⟩
  · intro enc x hx
    rw [encoderGet, hx]
    rfl
  · intro userMap itemMap rankItems forPredict u its hmem hu i hi
    apply List.mem_flatMap.mpr
    refine ⟨(u, its), hmem, ?_⟩
    simp only [hu]
    exact List.mem_map.mpr ⟨i, hi, rfl⟩
  · intro userMap itemMap rankItems forPredict u uix its hmem hu i hi hitem
    apply List.mem_flatMap.mpr
    refine ⟨(u, its), hmem, ?_⟩
    simp only [hu]
    apply List.mem_append_right
    apply List.mem_map.mpr
    refine ⟨i, ?_, rfl⟩
    apply List.mem_filter.mpr
    refine ⟨hi, ?_⟩
    rw [hitem]
    rfl

/-- C8 witness: encoder sentinel for an unseen id, an unknown user's pair
and a known user's unknown item, on concrete maps. -/
theorem unknown_identifier_handling_witness :
    encoderGet [(1, 5)] 2 = 0
      ∧ (7, 3, (0 : ℚ)) ∈ alsPredictRows [(1, 0)] [(4, 0)]
          (fun _ _ => [(4, 1)]) [(7, [3]), (1, [3, 4])]
      ∧ (1, 3, (0 : ℚ)) ∈ alsPredictRows [(1, 0)] [(4, 0)]
          (fun _ _ => [(4, 1)]) [(7, [3]), (1, [3, 4])] :=
  ⟨unknown_identifier_handling.1 [(1, 5)] 2 rfl,
    unknown_identifier_handling.2.1 [(1, 0)] [(4, 0)] (fun _ _ => [(4, 1)])
      [(7, [3]), (1, [3, 4])] 7 [3] (by decide) rfl 3 (by decide),
    unknown_identifier_handling.2.2 [(1, 0)] [(4, 0)] (fun _ _ => [(4, 1)])
      [(7, [3]), (1, [3, 4])] 1 0 [3, 4] (by decide) rfl 3 (by decide) rfl⟩

/-- C10: for dropout rate q in [0,1), `get_idx` returns a sorted list of
distinct indices inside [0, seq_len); in the sampling branch (q > 0 and
seq_len > 0) its length is `int(seq_len * (1 - q) + 1)`, a count that
always satisfies 1 ≤ count ≤ seq_len, so the without-replacement sample is
well defined and nonempty; otherwise the result is exactly
`range seq_len`. -/
theorem dropout_idx_properties (q : ℚ) (seqLen : ℕ) (sample : ℕ → ℕ → List ℕ)
    (hq0 : 0 ≤ q) (hq1 : q < 1)
    (hsample : ∀ n s, s ≤ n →
      (sample n s).length = s ∧ (sample n s).Nodup ∧ ∀ x ∈ sample n s, x < n) :
    List.Sorted (· ≤ ·) (getIdx q sample seqLen)
      ∧ (getIdx q sample seqLen).Nodup
      ∧ (∀ x ∈ getIdx q sample seqLen, x < seqLen)
      ∧ (0 < q → 0 < seqLen →
          (getIdx q sample seqLen).length = dropoutCount q seqLen
            ∧ 1 ≤ dropoutCount q seqLen ∧ dropoutCount q seqLen ≤ seqLen)
      ∧ (¬(0 < q ∧ 0 < seqLen) → getIdx q sample seqLen = List.range seqLen) := by
  have hcount : 0 < q → 0 < seqLen →
      1 ≤ dropoutCount q seqLen ∧ dropoutCount q seqLen ≤ seqLen := by
    intro hq hn
    have hn1 : (1 : ℚ) ≤ (seqLen : ℚ) := by exact_mod_cast hn
    have hub : (seqLen : ℚ) * (1 - q) + 1 < (seqLen : ℚ) + 1 := by nlinarith
    have hlb : (1 : ℚ) ≤ (seqLen : ℚ) * (1 - q) + 1 := by nlinarith
    have hfub : ⌊(seqLen : ℚ) * (1 - q) + 1⌋ < (seqLen : ℤ) + 1 := by
      apply Int.floor_lt.mpr
      push_cast
      exact hub
    have hflb : (1 : ℤ) ≤ ⌊(seqLen : ℚ) * (1 - q) + 1⌋ := by
      apply Int.le_floor.mpr
      push_cast
      exact hlb
    unfold dropoutCount
    omega
  by_cases hbr : 0 < q ∧ 0 < seqLen
  · have hcnt := hcount hbr.1 hbr.2
    have hs := hsample seqLen (dropoutCount q seqLen) hcnt.2
    have hgi : getIdx q sample seqLen
        = natSort (sample seqLen (dropoutCount q seqLen)) := by
      unfold getIdx
      rw [if_pos hbr]
    have hperm : (natSort (sample seqLen (dropoutCount q seqLen))).Perm
        (sample seqLen (dropoutCount q seqLen)) := List.perm_insertionSort _ _
    refine ⟨?_, ?_, ?_, fun _ _ => ⟨?_, hcnt⟩, fun hc => absurd hbr hc⟩
    · rw [hgi]
      exact List.sorted_insertionSort _ _
    · rw [hgi]
      exact hperm.nodup_iff.mpr hs.2.1
    · intro x hx
      rw [hgi] at hx
      exact hs.2.2 x (hperm.mem_iff.mp hx)
    · rw [hgi, natSort, List.length_insertionSort, hs.1]
  · have hgi : getIdx q sample seqLen = List.range seqLen := by
      unfold getIdx
      rw [if_neg hbr]
    refine ⟨?_, ?_, ?_, fun hq hn => absurd ⟨hq, hn⟩ hbr, fun _ => hgi⟩
    · rw [hgi]
      exact (List.pairwise_lt_range seqLen).imp le_of_lt
    · rw [hgi]
      exact List.nodup_range seqLen
    · intro x hx
      rw [hgi] at hx
      exact List.mem_range.mp hx

unseal Rat.add Rat.mul Rat.sub Rat.inv in
/-- C1 counterexample: user 0 has excluded both candidate items 10 and 11;
with k = 2 the top-k extraction still returns two indices, so the excluded
pair (0, 10) appears in the output of `model_predict_top_k` even though it
is present in the exclusion log - the claim as stated is false. -/
theorem masking_correctness_counterexample :
    (∃ row ∈ ([⟨0, 10, 1⟩, ⟨0, 11, 1⟩] : List LogRow), row.user = 0 ∧ row.item = 10)
      ∧ (0, 10) ∈ storiesPredictTopK (fun _ _ => 1 / 2)
          [⟨0, 10, 1⟩, ⟨0, 11, 1⟩] [0] [10, 11] 2 2 := by
  decide

/-- C1 (amended): every (user, item) pair present in the exclusion log is
absent from the output of `model_predict_top_k` for that user, provided
the user still has at least k unmasked candidate items (raw scores are
activation outputs, hence nonnegative): the mask forces the pair's
combined score to the sentinel -1, strictly below every unmasked score,
so the pair is never selected.  Without the proviso the claim fails,
because `torch.topk` always returns k indices per row (see the
counterexample). -/
theorem masking_correctness (score : ℕ → ℕ → ℚ) (exLog : List LogRow)
    (users items : List ℕ) (k B u i : ℕ)
    (hscore : ∀ v j, 0 ≤ score v j)
    (hex : ∃ row ∈ exLog, row.user = u ∧ row.item = i)
    (hk : k ≤ (items.filter (fun j => decide ((u, j) ∉ dedupPairs exLog))).length) :
    (u, i) ∉ storiesPredictTopK score exLog users items k B := by
  intro hmem
  rw [storiesPredictTopK, pipelineTopK_eq_flatMap] at hmem
  obtain ⟨v, hv, hx⟩ := List.mem_flatMap.mp hmem
  rw [pipeUserOut_eq_map] at hx
  obtain ⟨j, hj, hxj⟩ := List.mem_map.mp hx
  have hvu : v = u := congrArg Prod.fst hxj
  subst hvu
  have hji : items.getD j 0 = i := congrArg Prod.snd hxj
  have hlen : (items.map (score v)).length = items.length := List.length_map _ _
  have hcomb := combined_length (dedupPairs exLog) v items (items.map (score v)) hlen
  have hjlt : j < items.length := by
    have := topkIdx_mem_lt _ _ _ hj
    rwa [hcomb] at this
  have hexd : (v, i) ∈ dedupPairs exLog := by
    obtain ⟨row, hrow, h1, h2⟩ := hex
    exact List.mem_dedup.mpr (List.mem_map.mpr ⟨row, hrow, by rw [h1, h2]⟩)
  have hneg : scoreAt (List.zipWith combineScore (maskRow (dedupPairs exLog) v items)
      (items.map (score v))) j < 0 := by
    rw [scoreAt_combined _ _ _ _ hlen j hjlt, hji, decide_eq_true hexd,
      combineScore_true]
    norm_num
  have hcount : k ≤ ((List.range (List.zipWith combineScore
      (maskRow (dedupPairs exLog) v items) (items.map (score v))).length).filter
        (fun p => decide (0 ≤ scoreAt (List.zipWith combineScore
          (maskRow (dedupPairs exLog) v items) (items.map (score v))) p))).length := by
    rw [hcomb]
    refine le_trans hk ?_
    rw [← length_filter_range_getD items 0 (fun j => decide ((v, j) ∉ dedupPairs exLog))]
    apply length_filter_mono
    intro p hp hPp
    have hplt : p < items.length := List.mem_range.mp hp
    have hnm : (v, items.getD p 0) ∉ dedupPairs exLog := of_decide_eq_true hPp
    apply decide_eq_true
    rw [scoreAt_combined _ _ _ _ hlen p hplt, decide_eq_false hnm, combineScore_false,
      getD_map_of_lt (score v) items p hplt 0 0]
    exact hscore v _
  exact not_mem_topkIdx_of_neg _ k j hneg hcount hj

/-- C1 witness: the spec's concrete scenario - exclusion log [(u1, i1)],
items [i1, i2, i3], k = 2: the excluded top-raw-score item i1 = 1 of user
u1 = 100 is suppressed. -/
theorem masking_correctness_witness :
    (100, 1) ∉ storiesPredictTopK
      (fun _ i => if i = 1 then (9 : ℚ) / 10 else if i = 2 then 5 / 10 else 1 / 10)
      [⟨100, 1, 1⟩] [100] [1, 2, 3] 2 10 :=
  masking_correctness
    (fun _ i => if i = 1 then (9 : ℚ) / 10 else if i = 2 then 5 / 10 else 1 / 10)
    [⟨100, 1, 1⟩] [100] [1, 2, 3] 2 10 100 1
    (fun _ j => by simp only []; split <;> (try split) <;> norm_num)
    ⟨⟨100, 1, 1⟩, by decide, rfl, rfl⟩
    (by decide)

/-- C3: for k ≤ row length the top-k extraction returns exactly k indices,
all distinct, in descending score order along consecutive pairs; and in
`model_predict_top_k` each (distinct) user of the batch therefore
contributes exactly k output entries. -/
theorem topk_exact_count_descending (r : List ℚ) (kr : ℕ) (hkr : kr ≤ r.length)
    (score : ℕ → ℕ → ℚ) (exLog : List LogRow) (users items : List ℕ) (k B u : ℕ)
    (hnd : users.Nodup) (hu : u ∈ users) (hki : k ≤ items.length) :
    (topkIdx r kr).length = kr
      ∧ (topkIdx r kr).Nodup
      ∧ (topkIdx r kr).Chain' (fun i j => scoreAt r j ≤ scoreAt r i)
      ∧ ((storiesPredictTopK score exLog users items k B).filter
          (fun x => decide (x.1 = u))).length = k := by
  refine ⟨topkIdx_length r kr hkr, topkIdx_nodup r kr, ?_, ?_⟩
  · refine List.Pairwise.chain' ((topkIdx_sorted r kr).imp ?_)
    intro i j hij
    rcases hij with h | ⟨h, _⟩
    · exact le_of_lt h
    · exact le_of_eq h.symm
  · rw [storiesPredictTopK, pipelineTopK_eq_flatMap,
      count_user_output _ users u hnd hu ?hfst]
    case hfst =>
      intro v x hx
      rw [pipeUserOut_eq_map] at hx
      obtain ⟨j, _, hxj⟩ := List.mem_map.mp hx
      rw [← hxj]
    rw [pipeUserOut_eq_map, List.length_map, topkIdx_length]
    rw [combined_length _ _ _ _ (List.length_map _ _)]
    exact hki

/-- C3 witness: a concrete row with kr = 2 and a concrete two-user
pipeline run in which user 4 receives exactly 2 entries. -/
theorem topk_exact_count_descending_witness :
    ((storiesPredictTopK (fun u i => ((u + i : ℕ) : ℚ)) [⟨4, 2, 1⟩] [4, 5] [1, 2, 3] 2 2).filter
        (fun x => decide (x.1 = 4))).length = 2 :=
  (topk_exact_count_descending [1, 2] 1 (by decide)
    (fun u i => ((u + i : ℕ) : ℚ)) [⟨4, 2, 1⟩] [4, 5] [1, 2, 3] 2 2 4
    (by decide) (by decide) (by decide)).2.2.2

unseal Rat.add Rat.mul Rat.sub Rat.inv in
/-- C6: the popularity score of a tabulated item is exactly
(count + alpha) / (total + beta); the per-user score row is identical for
every user before masking; and in the spec's concrete scenario with
alpha = beta = 1000, counts (i1 : 10, i2 : 0) and total 10, the scores are
1010/1010 and 1000/1010 and i1 is ranked above i2 by the pipeline. -/
theorem popularity_score_formula :
    (∀ (pop : List (ℕ × ℚ)) (alpha beta : ℚ) (i : ℕ) (c : ℚ), (i, c) ∈ pop →
        (i, (c + alpha) / (popTotal pop + beta)) ∈ getItemScores pop alpha beta)
      ∧ (∀ (pop : List (ℕ × ℚ)) (alpha beta : ℚ) (idItems : List ℕ) (k avg u v : ℕ),
          popularRowFor pop alpha beta idItems k avg u
            = popularRowFor pop alpha beta idItems k avg v)
      ∧ getItemScores [(1, 10), (2, 0)] 1000 1000 = [(1, 1010 / 1010), (2, 1000 / 1010)]
      ∧ popularPredictTopK [(1, 10), (2, 0)] 1000 1000 1 [] [7] [1, 2] 2 1
          = [(7, 1), (7, 2)] := by
  refine ⟨?_, fun _ _ _ _ _ _ _ _ => rfl, by decide, by decide⟩
  intro pop alpha beta i c hmem
  unfold getItemScores
  exact List.mem_map.mpr ⟨(i, c), hmem, rfl⟩

/-- C6 witness: the Laplace-smoothed formula applied to item 1 with count
10 in the concrete popularity table. -/
theorem popularity_score_formula_witness :
    (1, ((10 : ℚ) + 1000) / (popTotal [(1, 10), (2, 0)] + 1000))
      ∈ getItemScores [(1, 10), (2, 0)] 1000 1000 :=
  popularity_score_formula.1 [(1, 10), (2, 0)] 1000 1000 1 10 (by decide)

/-- C7: the popularity pipeline's candidate restriction keeps exactly
min(k + avg_num_items, number of candidate items) items; every kept item
scores at least as high as every dropped item; and every output pair's
item comes from the restricted candidate set, so mask and top-k apply
only against it. -/
theorem popular_candidate_restriction (pop : List (ℕ × ℚ)) (alpha beta : ℚ)
    (avg : ℕ) (exLog : List LogRow) (users idItems : List ℕ) (k B : ℕ) :
    (popularRestrict pop alpha beta idItems k avg).length
        = min (k + avg) idItems.length
      ∧ (∀ p ∈ popularRestrict pop alpha beta idItems k avg,
          ∀ q ∈ (List.insertionSort itemGe
              (idItems.map (fun i => (i, lookupScore (getItemScores pop alpha beta) i)))).drop
              (k + avg), q.2 ≤ p.2)
      ∧ ∀ x ∈ popularPredictTopK pop alpha beta avg exLog users idItems k B,
          x.2 ∈ (popularRestrict pop alpha beta idItems k avg).map Prod.fst := by
  refine ⟨?_, ?_, ?_⟩
  · simp [popularRestrict, List.length_take, List.length_insertionSort, List.length_map]
  · intro p hp q hq
    exact pairwise_take_drop _ (k + avg)
      (List.sorted_insertionSort itemGe _) p hp q hq
  · intro x hx
    rw [popularPredictTopK, pipelineTopK_eq_flatMap] at hx
    obtain ⟨v, hv, hx⟩ := List.mem_flatMap.mp hx
    rw [pipeUserOut_eq_map] at hx
    obtain ⟨j, hj, hxj⟩ := List.mem_map.mp hx
    have hrl : (popularRowFor pop alpha beta idItems k avg v).length
        = ((popularRestrict pop alpha beta idItems k avg).map Prod.fst).length := by
      simp [popularRowFor]
    have hjlt : j < ((popularRestrict pop alpha beta idItems k avg).map Prod.fst).length := by
      have := topkIdx_mem_lt _ _ _ hj
      rwa [combined_length _ _ _ _ hrl] at this
    have hx2 : x.2 = ((popularRestrict pop alpha beta idItems k avg).map Prod.fst).getD j 0 :=
      (congrArg Prod.snd hxj).symm
    rw [hx2, List.getD_eq_getElem _ _ hjlt]
    exact List.getElem_mem hjlt

unseal Rat.add Rat.mul Rat.sub Rat.inv in
/-- C7 witness: with counts (1 : 10, 2 : 0), k = 1 and avg = 0, the output
pair (3, 1) draws its item from the restricted candidate list. -/
theorem popular_candidate_restriction_witness :
    (3, 1).2 ∈ (popularRestrict [(1, 10), (2, 0)] 1000 1000 [1, 2] 1 0).map Prod.fst :=
  (popular_candidate_restriction [(1, 10), (2, 0)] 1000 1000 0 [] [3] [1, 2] 1 1).2.2
    (3, 1) (by decide)

/-- C10 witness: q = 1/2 and seq_len = 5 with a concrete sampler; the
sampled branch keeps int(5 * 0.5 + 1) = 3 indices. -/
theorem dropout_idx_properties_witness :
    List.Sorted (· ≤ ·) (getIdx (1 / 2) (fun _ s => List.range s) 5)
      ∧ (getIdx (1 / 2) (fun _ s => List.range s) 5).length = dropoutCount (1 / 2) 5 :=
  ⟨(dropout_idx_properties (1 / 2) 5 (fun _ s => List.range s) (by norm_num) (by norm_num)
      (fun n s hs => ⟨List.length_range s, List.nodup_range s,
        fun x hx => lt_of_lt_of_le (List.mem_range.mp hx) hs⟩)).1,
    ((dropout_idx_properties (1 / 2) 5 (fun _ s => List.range s) (by norm_num) (by norm_num)
      (fun n s hs => ⟨List.length_range s, List.nodup_range s,
        fun x hx => lt_of_lt_of_le (List.mem_range.mp hx) hs⟩)).2.2.2.1 (by norm_num)
      (by norm_num)).1⟩

end Recsys
